import Mathlib

set_option linter.unusedVariables false

/-!
Verification of the fluff-rs core (a "Liar's Dice" variant) against its
specification.  The Rust modules `src/bet.rs`, `src/player.rs`,
`src/game/state.rs`, `src/game/round.rs` and `src/game.rs` are shallowly
embedded below: `NonZeroUsize` fields become `Nat` (positivity appears as a
hypothesis where a statement needs it), `IndexMap` becomes an
insertion-ordered association list, in-place mutation becomes explicit state
passing, `.expect(...)` panics become an outer `Option` layer, and the
process-wide random generator becomes an explicit stream `gen : Nat → Nat`
of raw draws; the guarantee of `Uniform::new_inclusive(1, max_roll)` that
every draw lies in `[1, max_roll]` becomes the `genInRange` hypothesis.
-/

namespace Fluff

/-- Player identity: a wrapper around a name string (`src/player.rs`).
Equality is by name, matching `Player`/`PlayerRef = Arc<Player>`. -/
abbrev PlayerRef := String

/-- A bet `{count, roll}` (`src/bet.rs`).  Field order matters in the source
only for the derived lexicographic ordering, which we state explicitly. -/
structure Bet where
  count : Nat
  roll : Nat
deriving DecidableEq, Repr

/-- The raise rejection taxonomy of `src/bet.rs::RaiseError`. -/
inductive RaiseError where
  | CountDecreased (prev new : Nat)
  | SameBet (b : Bet)
  | SameCountLowerRoll (prev new : Nat)
deriving DecidableEq, Repr

/-- Embedding of `const_cmp` from `src/bet.rs`. -/
def const_cmp (a b : Nat) : Ordering :=
  if a < b then .lt else if a = b then .eq else .gt

/-- Embedding of `Bet::is_raised_from` (`src/bet.rs` lines 62-78):
compares counts first, then rolls, returning the specific error. -/
def Bet.is_raised_from (self previous : Bet) : Except RaiseError Unit :=
  match const_cmp self.count previous.count with
  | .lt => .error (.CountDecreased previous.count self.count)
  | .gt => .ok ()
  | .eq =>
    match const_cmp self.roll previous.roll with
    | .lt => .error (.SameCountLowerRoll previous.roll self.roll)
    | .eq => .error (.SameBet self)
    | .gt => .ok ()

/-- Embedding of `Bet::count_matches` (`src/bet.rs` lines 80-85): entries
equal to the claimed face or to the wildcard `1` are kept and counted. -/
def Bet.count_matches (self : Bet) (rolls : List Nat) : Nat :=
  (rolls.filter (fun x => self.roll == x || (1 : Nat) == x)).length

/-- Embedding of `Bet::is_fluff` (`src/bet.rs` lines 87-89). -/
def Bet.is_fluff (self : Bet) (rolls : List Nat) : Bool :=
  decide (self.count_matches rolls < self.count)

/-- Reference function written from the specification text of the raise rule
(spec section 4.1), to be compared with the source-translated
`Bet.is_raised_from`: count decrease, identical bet, and same-count
lower-roll each yield their named error; anything else succeeds. -/
def is_raised_from_spec (b p : Bet) : Except RaiseError Unit :=
  if b.count < p.count then .error (.CountDecreased p.count b.count)
  else if b.count = p.count then
    if b.roll = p.roll then .error (.SameBet b)
    else if b.roll < p.roll then .error (.SameCountLowerRoll p.roll b.roll)
    else .ok ()
  else .ok ()

/-- A set of rolls: the immutable ordered dice of one player for one round
(`RollSet = Arc<[NonZeroUsize]>` in `src/game/round.rs`). -/
abbrev RollSet := List Nat

/-- A player together with their rolls (`src/game/round.rs::PlayerRolls`). -/
structure PlayerRolls where
  player : PlayerRef
  rolls : RollSet
deriving DecidableEq, Repr

/-- One history entry of a round (`src/game/round.rs::Turn`). -/
structure Turn where
  player : PlayerRef
  bet : Bet
deriving DecidableEq, Repr

/-- Phase data of a freshly rolled round (`src/game/state.rs::NewRound`). -/
structure NewRound where
  first_player_rolls : PlayerRolls
deriving DecidableEq, Repr

/-- Phase data of a betting round (`src/game/state.rs::Betting`). -/
structure Betting where
  curr_player_rolls : PlayerRolls
  prev_bet : Bet
deriving DecidableEq, Repr

/-- Phase data of a resolved round (`src/game/state.rs::Called`). -/
structure Called where
  caller : PlayerRef
  better : PlayerRef
  was_fluff : Bool
deriving DecidableEq, Repr

/-- Embedding of `Called::loser` (`src/game/state.rs` lines 46-52). -/
def Called.loser (c : Called) : PlayerRef :=
  if c.was_fluff then c.better else c.caller

/-- Embedding of `Called::winner` (`src/game/state.rs` lines 56-62). -/
def Called.winner (c : Called) : PlayerRef :=
  if c.was_fluff then c.caller else c.better

/-- A round, generic over its phase data (`src/game/round.rs::Round`).  The
`IndexMap<PlayerRef, RollSet>` is embedded as an insertion-ordered
association list. -/
structure Round (State : Type) where
  players_rolls : List (PlayerRef × RollSet)
  turns : List Turn
  state_data : State
deriving DecidableEq, Repr

/-- Lookup of a value by key in an insertion-ordered association list,
mirroring `IndexMap::get`. -/
def lookupValue {α : Type} : List (PlayerRef × α) → PlayerRef → Option α
  | [], _ => none
  | (k, v) :: rest, key => if k = key then some v else lookupValue rest key

/-- Lookup of the stored key-value pair, mirroring `IndexMap::get_key_value`. -/
def lookupPair {α : Type} : List (PlayerRef × α) → PlayerRef → Option (PlayerRef × α)
  | [], _ => none
  | (k, v) :: rest, key => if k = key then some (k, v) else lookupPair rest key

/-- In-place modification of the value stored at a key, mirroring
`IndexMap::get_mut` followed by assignment: the table keeps its order and
every other entry. -/
def updateValue {α : Type} : List (PlayerRef × α) → PlayerRef → (α → α) → List (PlayerRef × α)
  | [], _, _ => []
  | (k, v) :: rest, key, f =>
    if k = key then (k, f v) :: rest else (k, v) :: updateValue rest key f

/-- Embedding of `Round::init_next_state` (`src/game/round.rs` lines 51-69):
index of the acting player, cyclic successor, and the Betting data for the
next player.  The two `.expect` panics of the source are the `none` cases. -/
def init_next_state (players_rolls : List (PlayerRef × RollSet)) (turn : Turn) :
    Option Betting :=
  match players_rolls.findIdx? (fun kv => kv.1 == turn.player) with
  | none => none
  | some i =>
    match players_rolls[(i + 1) % players_rolls.length]? with
    | none => none
    | some kv => some ⟨⟨kv.1, kv.2⟩, turn.bet⟩

/-- One player's fresh rolls (`src/game/round.rs` lines 86-90):
`dist.sample_iter(thread_rng()).take(dice_count).filter_map(NonZeroUsize::new)`
becomes `n` raw draws of the stream starting at `start`, with zero draws
discarded by the `filter_map`. -/
def sampleRolls (gen : Nat → Nat) (start n : Nat) : RollSet :=
  ((List.range n).map (fun k => gen (start + k))).filter (fun x => x != 0)

/-- The whole roll table of `Round::new`, one `sampleRolls` per remaining
player, consuming the draw stream left to right. -/
def rollsTable (gen : Nat → Nat) : List (PlayerRef × Nat) → Nat → List (PlayerRef × RollSet)
  | [], _ => []
  | (p, c) :: rest, start => (p, sampleRolls gen start c) :: rollsTable gen rest (start + c)

/-- Embedding of `Round::new` (`src/game/round.rs` lines 76-103): players
with zero dice are filtered out, each remaining player gets a fresh roll
set, the turn history starts empty, and the first player of the table is due
to act (`none` is the `.expect` on an empty table). -/
def Round.new (player_dice_counts : List (PlayerRef × Nat)) (max_roll : Nat)
    (gen : Nat → Nat) : Option (Round NewRound) :=
  match (rollsTable gen (player_dice_counts.filter (fun pc => pc.2 != 0)) 0)[0]? with
  | none => none
  | some kv =>
    some ⟨rollsTable gen (player_dice_counts.filter (fun pc => pc.2 != 0)) 0, [], ⟨⟨kv.1, kv.2⟩⟩⟩

/-- Error of `Round::new_with_first_player` (`src/game/round.rs` line 72). -/
structure FirstPlayerNotInGivenPlayers where
deriving DecidableEq, Repr

/-- Embedding of `Round::new_with_first_player` (`src/game/round.rs` lines
105-117): builds a fresh round and then redirects `first_player_rolls` to
the designated player, failing when that player is absent from the rolled
table. -/
def Round.new_with_first_player (player_dice_counts : List (PlayerRef × Nat))
    (max_roll : Nat) (gen : Nat → Nat) (first_player : PlayerRef) :
    Option (Except FirstPlayerNotInGivenPlayers (Round NewRound)) :=
  match Round.new player_dice_counts max_roll gen with
  | none => none
  | some r =>
    match lookupPair r.players_rolls first_player with
    | none => some (.error ⟨⟩)
    | some kv => some (.ok ⟨r.players_rolls, r.turns, ⟨⟨kv.1, kv.2⟩⟩⟩)

/-- Embedding of `Round::<NewRound>::raise_bet` (`src/game/round.rs` lines
119-136): the first bet is unconditionally accepted, recorded as a Turn of
the first player, and the round moves to the betting phase. -/
def Round.raise_bet_first (r : Round NewRound) (bet : Bet) :
    Option (Round Betting) :=
  match init_next_state r.players_rolls ⟨r.state_data.first_player_rolls.player, bet⟩ with
  | none => none
  | some sd =>
    some ⟨r.players_rolls, r.turns ++ [⟨r.state_data.first_player_rolls.player, bet⟩], sd⟩

/-- Embedding of `Round::<Betting>::raise_bet` (`src/game/round.rs` lines
146-155).  The Rust method mutates `&mut self` and returns
`Result<(), RaiseError>`; here the mutation is explicit state passing: the
returned round is the receiver after the call, paired with the result.  The
outer `Option` is the `.expect` panic inside `init_next_state`. -/
def Round.raise_bet (r : Round Betting) (bet : Bet) :
    Option (Round Betting × Except RaiseError Unit) :=
  match bet.is_raised_from r.state_data.prev_bet with
  | .error e => some (r, .error e)
  | .ok _ =>
    match init_next_state r.players_rolls ⟨r.state_data.curr_player_rolls.player, bet⟩ with
    | none => none
    | some sd =>
      some (⟨r.players_rolls, r.turns ++ [⟨r.state_data.curr_player_rolls.player, bet⟩], sd⟩,
            .ok ())

/-- Embedding of `Round::<Betting>::is_fluff` (`src/game/round.rs` lines
140-144): the previous bet tested against every roll of every player,
flattened in table order. -/
def Round.is_fluff (r : Round Betting) : Bool :=
  r.state_data.prev_bet.is_fluff (r.players_rolls.map Prod.snd).flatten

/-- Embedding of `Round::<Betting>::call_fluff` (`src/game/round.rs` lines
158-176): the caller is the player due to act, the better is the player of
the last Turn (`none` is the source's `.expect` on an empty history). -/
def Round.call_fluff (r : Round Betting) : Option (Round Called) :=
  match r.turns.getLast? with
  | none => none
  | some t =>
    some ⟨r.players_rolls, r.turns,
          ⟨r.state_data.curr_player_rolls.player, t.player, r.is_fluff⟩⟩

/-- Game configuration (`src/game.rs::GameConfig`). -/
structure GameConfig where
  max_dice : Nat
  max_roll : Nat
deriving DecidableEq, Repr

/-- Phase data of an in-progress game (`src/game/state.rs::InRound`). -/
structure InRound (State : Type) where
  curr_round : Round State
deriving DecidableEq, Repr

/-- Phase data of a finished game (`src/game/state.rs::GameOver`). -/
structure GameOver where
  winner : PlayerRef
deriving DecidableEq, Repr

/-- The outer game state (`src/game.rs::Game`), generic over its phase. -/
structure Game (State : Type) where
  player_dice_counts : List (PlayerRef × Nat)
  config : GameConfig
  round_history : List (Round Called)
  state_data : State
deriving DecidableEq, Repr

/-- Count of players still holding dice:
`player_dice_counts.values().filter(|x| **x != 0).count()` in `src/game.rs`. -/
def countNonzero (m : List (PlayerRef × Nat)) : Nat :=
  (m.filter (fun pc => pc.2 != 0)).length

/-- The tagged union returned by `Game::call_fluff`
(`src/game.rs::FluffCallTransition`). -/
inductive FluffCallTransition where
  | NextRound (g : Game (InRound NewRound))
  | GameOver (g : Game GameOver)
deriving DecidableEq, Repr

/-- The dice-count table of either transition result (the Rust accessor
`Game::player_dice_counts` exists in every phase). -/
def FluffCallTransition.dice_counts : FluffCallTransition → List (PlayerRef × Nat)
  | .NextRound g => g.player_dice_counts
  | .GameOver g => g.player_dice_counts

/-- The round history of either transition result (the Rust accessor
`Game::round_history` exists in every phase). -/
def FluffCallTransition.history : FluffCallTransition → List (Round Called)
  | .NextRound g => g.round_history
  | .GameOver g => g.round_history

/-- The configuration of either transition result. -/
def FluffCallTransition.cfg : FluffCallTransition → GameConfig
  | .NextRound g => g.config
  | .GameOver g => g.config

/-- Embedding of `Game::<InRound<Betting>>::call_fluff` (`src/game.rs` lines
115-150): resolve the round, decrement the loser's dice count, append the
round to history, then either declare the sole remaining player the winner
or start a new round with the round's winner acting first.  The `none`
cases are the source's `.expect` panics; `Nat` subtraction stands for the
`usize` decrement, which the claims guard with a positivity hypothesis. -/
def Game.call_fluff (gen : Nat → Nat) (g : Game (InRound Betting)) :
    Option FluffCallTransition :=
  match g.state_data.curr_round.call_fluff with
  | none => none
  | some finished =>
    match lookupValue g.player_dice_counts finished.state_data.loser with
    | none => none
    | some c =>
      if c - 1 = 0 ∧
          countNonzero (updateValue g.player_dice_counts
            finished.state_data.loser (fun v => v - 1)) = 1 then
        some (.GameOver ⟨updateValue g.player_dice_counts
            finished.state_data.loser (fun v => v - 1),
          g.config, g.round_history ++ [finished], ⟨finished.state_data.winner⟩⟩)
      else
        match Round.new_with_first_player
            (updateValue g.player_dice_counts finished.state_data.loser (fun v => v - 1))
            g.config.max_roll gen finished.state_data.winner with
        | none => none
        | some (.error _) => none
        | some (.ok r) =>
          some (.NextRound ⟨updateValue g.player_dice_counts
              finished.state_data.loser (fun v => v - 1),
            g.config, g.round_history ++ [finished], ⟨r⟩⟩)

/-- Embedding of `Game::<InRound<Betting>>::raise_bet` (`src/game.rs` lines
109-112): pure delegation to the contained round. -/
def Game.raise_bet (g : Game (InRound Betting)) (bet : Bet) :
    Option (Game (InRound Betting) × Except RaiseError Unit) :=
  match g.state_data.curr_round.raise_bet bet with
  | none => none
  | some (r, res) => some (⟨g.player_dice_counts, g.config, g.round_history, ⟨r⟩⟩, res)

/-- The contract of `Uniform::new_inclusive(1, max_roll)`: every raw draw of
the stream lies in `[1, max_roll]`. -/
def genInRange (gen : Nat → Nat) (max_roll : Nat) : Prop :=
  ∀ i, 1 ≤ gen i ∧ gen i ≤ max_roll

/-- Concrete two-player betting round used as a test position: Alice
opened with "2 3" and Bob is due to act. -/
def sampleRound : Round Betting :=
  ⟨[("Alice", [3, 3]), ("Bob", [2, 4])],
   [⟨"Alice", ⟨2, 3⟩⟩],
   ⟨⟨"Bob", [2, 4]⟩, ⟨2, 3⟩⟩⟩

/-- Concrete fresh round: what `Round::new` rolls from the table
`[("Alice", 1), ("Bob", 2)]` under the constant draw stream `2`. -/
def sampleFresh : Round NewRound :=
  ⟨[("Alice", [2]), ("Bob", [2, 2])], [], ⟨⟨"Alice", [2]⟩⟩⟩

/-- Concrete endgame betting round: one die each, Alice claimed "2 3". -/
def roundA : Round Betting :=
  ⟨[("Alice", [3]), ("Bob", [2])], [⟨"Alice", ⟨2, 3⟩⟩], ⟨⟨"Bob", [2]⟩, ⟨2, 3⟩⟩⟩

/-- Concrete two-player game holding `roundA`, one die per player. -/
def gameA : Game (InRound Betting) :=
  ⟨[("Alice", 1), ("Bob", 1)], ⟨5, 6⟩, [], ⟨roundA⟩⟩

/-- The resolution of `roundA`: only one effective 3 among the rolls, so
the bet was fluff and the better Alice loses to the caller Bob. -/
def finishedA : Round Called :=
  ⟨[("Alice", [3]), ("Bob", [2])], [⟨"Alice", ⟨2, 3⟩⟩], ⟨"Bob", "Alice", true⟩⟩

/-- The dice table of `gameA` after Alice's losing die is removed. -/
def pdcA : List (PlayerRef × Nat) := [("Alice", 0), ("Bob", 1)]

/-- Modelled from the spec: the serialized snapshot form (spec section 6)
of the core data.  The serde/serde_json wire format is not part of `src/`;
the spec fixes only that a round trip must reconstruct the value exactly,
insertion order and turn history included, so we model the snapshot as a
small structured-value tree. -/
inductive Sx where
  | str (s : String)
  | nat (n : Nat)
  | arr (xs : List Sx)

/-- Modelled from the spec: list decoder over the snapshot tree. -/
def decListWith {α : Type} (g : Sx → Option α) : List Sx → Option (List α)
  | [] => some []
  | x :: xs =>
    match g x, decListWith g xs with
    | some a, some as => some (a :: as)
    | _, _ => none

/-- Modelled from the spec: snapshot of a Bet. -/
def encBet (b : Bet) : Sx := .arr [.nat b.count, .nat b.roll]

/-- Modelled from the spec: decoder of a Bet snapshot. -/
def decBet : Sx → Option Bet
  | .arr [.nat c, .nat r] => some ⟨c, r⟩
  | _ => none

/-- Modelled from the spec: snapshot of a roll set. -/
def encRolls (rs : RollSet) : Sx := .arr (rs.map .nat)

/-- Modelled from the spec: decoder of a roll-set snapshot. -/
def decRolls : Sx → Option RollSet
  | .arr xs => decListWith (fun s => match s with | .nat n => some n | _ => none) xs
  | _ => none

/-- Modelled from the spec: snapshot of a Turn. -/
def encTurn (t : Turn) : Sx := .arr [.str t.player, encBet t.bet]

/-- Modelled from the spec: decoder of a Turn snapshot. -/
def decTurn : Sx → Option Turn
  | .arr [.str p, b] => (decBet b).map (fun bb => ⟨p, bb⟩)
  | _ => none

/-- Modelled from the spec: snapshot of one roll-table entry. -/
def encPRolls (pr : PlayerRef × RollSet) : Sx := .arr [.str pr.1, encRolls pr.2]

/-- Modelled from the spec: decoder of a roll-table entry. -/
def decPRolls : Sx → Option (PlayerRef × RollSet)
  | .arr [.str p, rs] => (decRolls rs).map (fun v => (p, v))
  | _ => none

/-- Modelled from the spec: snapshot of one dice-count entry. -/
def encPCount (pc : PlayerRef × Nat) : Sx := .arr [.str pc.1, .nat pc.2]

/-- Modelled from the spec: decoder of a dice-count entry. -/
def decPCount : Sx → Option (PlayerRef × Nat)
  | .arr [.str p, .nat n] => some (p, n)
  | _ => none

/-- Modelled from the spec: snapshot of a PlayerRolls value. -/
def encPlayerRolls (pr : PlayerRolls) : Sx := .arr [.str pr.player, encRolls pr.rolls]

/-- Modelled from the spec: decoder of a PlayerRolls snapshot. -/
def decPlayerRolls : Sx → Option PlayerRolls
  | .arr [.str p, rs] => (decRolls rs).map (fun v => ⟨p, v⟩)
  | _ => none

/-- Modelled from the spec: snapshot of NewRound phase data. -/
def encNewRound (d : NewRound) : Sx := encPlayerRolls d.first_player_rolls

/-- Modelled from the spec: decoder of NewRound phase data. -/
def decNewRound (s : Sx) : Option NewRound := (decPlayerRolls s).map (fun v => ⟨v⟩)

/-- Modelled from the spec: snapshot of Betting phase data. -/
def encBetting (d : Betting) : Sx := .arr [encPlayerRolls d.curr_player_rolls, encBet d.prev_bet]

/-- Modelled from the spec: decoder of Betting phase data. -/
def decBetting : Sx → Option Betting
  | .arr [pr, b] =>
    match decPlayerRolls pr, decBet b with
    | some v, some bb => some ⟨v, bb⟩
    | _, _ => none
  | _ => none

/-- Modelled from the spec: snapshot of Called phase data. -/
def encCalled (c : Called) : Sx :=
  .arr [.str c.caller, .str c.better, .nat (cond c.was_fluff 1 0)]

/-- Modelled from the spec: decoder of Called phase data. -/
def decCalled : Sx → Option Called
  | .arr [.str ca, .str be, .nat f] =>
    match f with
    | 0 => some ⟨ca, be, false⟩
    | 1 => some ⟨ca, be, true⟩
    | _ => none
  | _ => none

/-- Modelled from the spec: snapshot of a Round with a given phase encoder. -/
def encRound {σ : Type} (encS : σ → Sx) (r : Round σ) : Sx :=
  .arr [.arr (r.players_rolls.map encPRolls), .arr (r.turns.map encTurn), encS r.state_data]

/-- Modelled from the spec: decoder of a Round snapshot. -/
def decRound {σ : Type} (decS : Sx → Option σ) : Sx → Option (Round σ)
  | .arr [.arr prs, .arr ts, sd] =>
    match decListWith decPRolls prs, decListWith decTurn ts, decS sd with
    | some p, some t, some s => some ⟨p, t, s⟩
    | _, _, _ => none
  | _ => none

/-- Modelled from the spec: snapshot of the configuration. -/
def encConfig (c : GameConfig) : Sx := .arr [.nat c.max_dice, .nat c.max_roll]

/-- Modelled from the spec: decoder of the configuration. -/
def decConfig : Sx → Option GameConfig
  | .arr [.nat d, .nat r] => some ⟨d, r⟩
  | _ => none

/-- Modelled from the spec: snapshot of a Game with a given phase encoder. -/
def encGame {σ : Type} (encS : σ → Sx) (g : Game σ) : Sx :=
  .arr [.arr (g.player_dice_counts.map encPCount), encConfig g.config,
        .arr (g.round_history.map (encRound encCalled)), encS g.state_data]

/-- Modelled from the spec: decoder of a Game snapshot. -/
def decGame {σ : Type} (decS : Sx → Option σ) : Sx → Option (Game σ)
  | .arr [.arr pdc, cf, .arr rh, sd] =>
    match decListWith decPCount pdc, decConfig cf,
          decListWith (decRound decCalled) rh, decS sd with
    | some p, some c, some r, some s => some ⟨p, c, r, s⟩
    | _, _, _, _ => none
  | _ => none

/-- Modelled from the spec: snapshot of in-round phase data. -/
def encInRound {σ : Type} (encS : σ → Sx) (d : InRound σ) : Sx := encRound encS d.curr_round

/-- Modelled from the spec: decoder of in-round phase data. -/
def decInRound {σ : Type} (decS : Sx → Option σ) (s : Sx) : Option (InRound σ) :=
  (decRound decS s).map (fun r => ⟨r⟩)

/-- Modelled from the spec: snapshot of game-over phase data. -/
def encGameOver (d : GameOver) : Sx := .str d.winner

/-- Modelled from the spec: decoder of game-over phase data. -/
def decGameOver : Sx → Option GameOver
  | .str w => some ⟨w⟩
  | _ => none

/-! Theorems.  The claim theorems are named `c1_...` through `c10_...`; each
hypothesis-bearing claim theorem has a closed witness applying it to a
concrete game position. -/

/-- C1: `is_raised_from` succeeds exactly when `(count, roll)` strictly
increased lexicographically, and otherwise returns exactly the error the
specification assigns to the failing case (count decreased / identical bet /
same count lower roll, with the stated payloads). -/
theorem c1_is_raised_from_characterization (b p : Bet) :
    (b.is_raised_from p = .ok () ↔
      (p.count < b.count ∨ (p.count = b.count ∧ p.roll < b.roll))) ∧
    b.is_raised_from p = is_raised_from_spec b p := by
  unfold Bet.is_raised_from is_raised_from_spec const_cmp
  rcases Nat.lt_trichotomy b.count p.count with h | h | h <;>
    rcases Nat.lt_trichotomy b.roll p.roll with h2 | h2 | h2 <;>
      simp [h, h2, Nat.lt_irrefl, Nat.lt_asymm, Nat.ne_of_lt, Nat.ne_of_gt]

/-- C4: `count_matches` counts exactly the entries equal to the claimed face
or to the wildcard `1` (plain equality counting when the claimed face is
itself `1`), and `is_fluff` holds exactly when the match count is strictly
below the claimed count. -/
theorem c4_count_matches_and_is_fluff (b : Bet) (rolls : List Nat) :
    b.count_matches rolls = rolls.countP (fun x => decide (x = b.roll ∨ x = 1)) ∧
    (b.roll = 1 → b.count_matches rolls = rolls.count 1) ∧
    (b.is_fluff rolls = true ↔ b.count_matches rolls < b.count) := by
  refine ⟨?_, ?_, ?_⟩
  · unfold Bet.count_matches
    rw [List.countP_eq_length_filter]
    congr 1
    apply List.filter_congr
    intro x _
    rw [Bool.eq_iff_iff]
    simp only [Bool.or_eq_true, beq_iff_eq, decide_eq_true_eq]
    omega
  · intro h
    unfold Bet.count_matches
    rw [List.count, List.countP_eq_length_filter]
    congr 1
    apply List.filter_congr
    intro x _
    rw [Bool.eq_iff_iff]
    simp only [Bool.or_eq_true, beq_iff_eq, h]
    omega
  · unfold Bet.is_fluff
    simp

/-- A successful key search yields an index inside the table. -/
theorem findIdx?_some_lt {α : Type} {p : α → Bool} {l : List α} {i : Nat}
    (h : l.findIdx? p = some i) : i < l.length := by
  induction l generalizing i with
  | nil => simp [List.findIdx?] at h
  | cons x xs ih =>
    rw [List.findIdx?_cons] at h
    by_cases hp : p x
    · simp [hp] at h
      simp only [List.length_cons]
      omega
    · simp [hp] at h
      obtain ⟨j, hj, hji⟩ := h
      have := ih hj
      simp only [List.length_cons]
      omega

/-- The entry at a found index satisfies the search predicate. -/
theorem findIdx?_some_get {α : Type} {p : α → Bool} {l : List α} {i : Nat}
    (h : l.findIdx? p = some i) : ∃ a, l[i]? = some a ∧ p a = true := by
  induction l generalizing i with
  | nil => simp [List.findIdx?] at h
  | cons x xs ih =>
    rw [List.findIdx?_cons] at h
    by_cases hp : p x
    · simp [hp] at h
      exact ⟨x, by simp [← h], hp⟩
    · simp [hp] at h
      obtain ⟨j, hj, hji⟩ := h
      obtain ⟨a, ha, hpa⟩ := ih hj
      exact ⟨a, by simp [← hji, ha], hpa⟩

/-- When the acting player is found at index `i`, `init_next_state` succeeds
and hands the turn to the entry at the cyclic successor index. -/
theorem init_next_state_eq_some {prs : List (PlayerRef × RollSet)} {t : Turn} {i : Nat}
    (h : prs.findIdx? (fun kv => kv.1 == t.player) = some i) :
    ∃ kv, prs[(i + 1) % prs.length]? = some kv ∧
      init_next_state prs t = some ⟨⟨kv.1, kv.2⟩, t.bet⟩ := by
  have hi := findIdx?_some_lt h
  have hlen : 0 < prs.length := Nat.lt_of_le_of_lt (Nat.zero_le i) hi
  have hm : (i + 1) % prs.length < prs.length := Nat.mod_lt _ hlen
  refine ⟨prs[(i + 1) % prs.length], List.getElem?_eq_getElem hm, ?_⟩
  simp [init_next_state, h, List.getElem?_eq_getElem hm]

/-- The cyclic successor of an index differs from it in a table of at least
two entries. -/
theorem succ_mod_ne {i n : Nat} (hi : i < n) (hn : 2 ≤ n) : (i + 1) % n ≠ i := by
  rcases Nat.lt_or_ge (i + 1) n with h | h
  · rw [Nat.mod_eq_of_lt h]
    omega
  · have hexact : i + 1 = n := by omega
    rw [hexact, Nat.mod_self]
    omega

/-- Updating a key rewrites exactly that key's value. -/
theorem lookupValue_update_self {α : Type} {m : List (PlayerRef × α)} {k : PlayerRef}
    {v : α} (f : α → α) (h : lookupValue m k = some v) :
    lookupValue (updateValue m k f) k = some (f v) := by
  induction m with
  | nil => simp [lookupValue] at h
  | cons kv rest ih =>
    by_cases hk : kv.1 = k
    · simp [lookupValue, hk] at h
      simp [updateValue, lookupValue, hk, h]
    · simp [lookupValue, hk] at h
      simp [updateValue, lookupValue, hk, ih h]

/-- Updating a key leaves every other key's value unchanged. -/
theorem lookupValue_update_ne {α : Type} (m : List (PlayerRef × α)) {k p : PlayerRef}
    (f : α → α) (hne : p ≠ k) :
    lookupValue (updateValue m k f) p = lookupValue m p := by
  induction m with
  | nil => simp [updateValue]
  | cons kv rest ih =>
    by_cases hk : kv.1 = k
    · simp [updateValue, lookupValue, hk, Ne.symm hne]
    · by_cases hp : kv.1 = p <;> simp [updateValue, lookupValue, hk, hp, hne, ih]

/-- Updating a value keeps the key sequence, hence the insertion order. -/
theorem map_fst_updateValue {α : Type} (m : List (PlayerRef × α)) (k : PlayerRef)
    (f : α → α) : (updateValue m k f).map Prod.fst = m.map Prod.fst := by
  induction m with
  | nil => simp [updateValue]
  | cons kv rest ih =>
    by_cases hk : kv.1 = k <;> simp [updateValue, hk, ih]

/-- A successful lookup exhibits a member of the table. -/
theorem lookupValue_mem {α : Type} {m : List (PlayerRef × α)} {k : PlayerRef} {v : α}
    (h : lookupValue m k = some v) : (k, v) ∈ m := by
  induction m with
  | nil => simp [lookupValue] at h
  | cons kv rest ih =>
    by_cases hk : kv.1 = k
    · simp [lookupValue, hk] at h
      have hkv : kv = (k, v) := by
        cases kv
        simp_all
      rw [← hkv]
      exact List.mem_cons_self _ _
    · simp [lookupValue, hk] at h
      exact List.mem_cons_of_mem _ (ih h)

/-- Decrementing a count that stays positive does not change how many
players still hold dice. -/
theorem countNonzero_update_of_pos {m : List (PlayerRef × Nat)} {k : PlayerRef} {c : Nat}
    (h : lookupValue m k = some c) (hc : c ≠ 0) (hc1 : c - 1 ≠ 0) :
    countNonzero (updateValue m k (fun v => v - 1)) = countNonzero m := by
  induction m with
  | nil => simp [lookupValue] at h
  | cons kv rest ih =>
    by_cases hk : kv.1 = k
    · simp [lookupValue, hk] at h
      subst h
      simp [updateValue, countNonzero, hk, List.filter_cons, hc, hc1]
    · simp [lookupValue, hk] at h
      have := ih h
      by_cases hz : kv.2 = 0 <;>
        simp [updateValue, countNonzero, hk, List.filter_cons, hz] at this ⊢ <;>
          omega

/-- A key that is present is found by `lookupPair`, with itself as the
stored key. -/
theorem lookupPair_of_mem_keys {α : Type} {m : List (PlayerRef × α)} {k : PlayerRef}
    (h : k ∈ m.map Prod.fst) : ∃ v, lookupPair m k = some (k, v) := by
  induction m with
  | nil => simp at h
  | cons kv rest ih =>
    rw [List.map_cons, List.mem_cons] at h
    by_cases hk : kv.1 = k
    · exact ⟨kv.2, by simp [lookupPair, hk]⟩
    · have h2 : k ∈ rest.map Prod.fst := by
        rcases h with h | h
        · exact absurd h.symm hk
        · exact h
      obtain ⟨v, hv⟩ := ih h2
      exact ⟨v, by simp [lookupPair, hk, hv]⟩

/-- The roll table built by `Round::new` has exactly the filtered players as
keys, in order. -/
theorem rollsTable_keys (gen : Nat → Nat) (l : List (PlayerRef × Nat)) (s : Nat) :
    (rollsTable gen l s).map Prod.fst = l.map Prod.fst := by
  induction l generalizing s with
  | nil => simp [rollsTable]
  | cons kv rest ih => simp [rollsTable, ih]

/-- The roll table has one entry per filtered player. -/
theorem rollsTable_length (gen : Nat → Nat) (l : List (PlayerRef × Nat)) (s : Nat) :
    (rollsTable gen l s).length = l.length := by
  have h := congrArg List.length (rollsTable_keys gen l s)
  simpa using h

/-- A list of length one containing an element is that singleton. -/
theorem length_one_mem_eq {α : Type} {l : List α} {x : α}
    (hlen : l.length = 1) (hx : x ∈ l) : l = [x] := by
  match l, hlen with
  | [y], _ =>
    simp at hx
    rw [hx]

/-- In-range draws survive the zero filter untouched: `sampleRolls` has
exactly `n` entries, all in `[1, max_roll]`. -/
theorem sampleRolls_spec {gen : Nat → Nat} {mr : Nat} (hg : genInRange gen mr)
    (s n : Nat) :
    (sampleRolls gen s n).length = n ∧
      ∀ x ∈ sampleRolls gen s n, 1 ≤ x ∧ x ≤ mr := by
  have hall : ∀ x ∈ (List.range n).map (fun k => gen (s + k)), 1 ≤ x ∧ x ≤ mr := by
    intro x hx
    simp only [List.mem_map] at hx
    obtain ⟨k, _, rfl⟩ := hx
    exact hg (s + k)
  have hfe : ((List.range n).map (fun k => gen (s + k))).filter (fun x => x != 0) =
      (List.range n).map (fun k => gen (s + k)) := by
    apply List.filter_eq_self.mpr
    intro x hx
    have := (hall x hx).1
    simp
    omega
  constructor
  · unfold sampleRolls
    rw [hfe]
    simp
  · intro x hx
    unfold sampleRolls at hx
    rw [hfe] at hx
    exact hall x hx

/-- Each roll set of the table pairs its player with as many in-range rolls
as that player's dice count. -/
theorem rollsTable_forall2 {gen : Nat → Nat} {mr : Nat} (hg : genInRange gen mr)
    (l : List (PlayerRef × Nat)) (s : Nat) :
    List.Forall₂ (fun (pc : PlayerRef × Nat) (pr : PlayerRef × RollSet) =>
        pr.1 = pc.1 ∧ pr.2.length = pc.2 ∧ ∀ x ∈ pr.2, 1 ≤ x ∧ x ≤ mr)
      l (rollsTable gen l s) := by
  induction l generalizing s with
  | nil => simp [rollsTable]
  | cons kv rest ih =>
    obtain ⟨hlen, hmem⟩ := sampleRolls_spec hg s kv.2
    exact List.Forall₂.cons ⟨rfl, hlen, hmem⟩ (ih _)

/-- C2: resolving a betting round by `call_fluff` stores as `was_fluff` the
previous bet's `is_fluff` verdict over every player's flattened rolls,
records the player of the most recent Turn as better and the player due to
act — necessarily a different player — as caller, and assigns loser and
winner from the verdict: the better loses exactly when the bet was fluff. -/
theorem c2_call_fluff_resolution (r : Round Betting) (t : Turn) (i : Nat)
    (ht : r.turns.getLast? = some t)
    (hidx : r.players_rolls.findIdx? (fun kv => kv.1 == t.player) = some i)
    (hcoh : init_next_state r.players_rolls t = some r.state_data)
    (hnd : (r.players_rolls.map Prod.fst).Nodup)
    (hlen : 2 ≤ r.players_rolls.length) :
    ∃ rc, r.call_fluff = some rc ∧
      rc.state_data.was_fluff =
        r.state_data.prev_bet.is_fluff (r.players_rolls.map Prod.snd).flatten ∧
      rc.state_data.better = t.player ∧
      rc.state_data.caller = r.state_data.curr_player_rolls.player ∧
      rc.state_data.caller ≠ rc.state_data.better ∧
      rc.state_data.loser =
        (if rc.state_data.was_fluff then rc.state_data.better else rc.state_data.caller) ∧
      rc.state_data.winner =
        (if rc.state_data.was_fluff then rc.state_data.caller else rc.state_data.better) := by
  refine ⟨⟨r.players_rolls, r.turns,
          ⟨r.state_data.curr_player_rolls.player, t.player, r.is_fluff⟩⟩,
        by simp [Round.call_fluff, ht], rfl, rfl, rfl, ?_, rfl, rfl⟩
  obtain ⟨kv, hkv, hins⟩ := init_next_state_eq_some hidx
  have hsd : r.state_data = ⟨⟨kv.1, kv.2⟩, t.bet⟩ := Option.some.inj (hcoh.symm.trans hins)
  obtain ⟨a, ha, hpa⟩ := findIdx?_some_get hidx
  have hat : a.1 = t.player := by simpa using hpa
  have hi := findIdx?_some_lt hidx
  have hm : (i + 1) % r.players_rolls.length < r.players_rolls.length :=
    Nat.mod_lt _ (by omega)
  intro heq
  dsimp only at heq
  have hcurr : r.state_data.curr_player_rolls.player = kv.1 := by rw [hsd]
  have e1 : (r.players_rolls.map Prod.fst)[(i + 1) % r.players_rolls.length]? = some kv.1 := by
    rw [List.getElem?_map, hkv]
    rfl
  have e2 : (r.players_rolls.map Prod.fst)[i]? = some a.1 := by
    rw [List.getElem?_map, ha]
    rfl
  have heq2 : (i + 1) % r.players_rolls.length = i := by
    refine List.getElem?_inj (by simpa using hm) hnd ?_
    rw [e1, e2, hat, ← hcurr, heq]
  exact succ_mod_ne hi hlen heq2

/-- C10: the verdict stored by `call_fluff` agrees with a recomputation from
the stored data: applying the final stored Turn's bet to the concatenation
of the stored roll sets yields exactly `was_fluff`, provided the round's
tracked previous bet is the final Turn's bet (which every raise
re-establishes). -/
theorem c10_verdict_recompute (r : Round Betting) (t : Turn)
    (ht : r.turns.getLast? = some t)
    (hpb : r.state_data.prev_bet = t.bet) :
    ∃ rc, r.call_fluff = some rc ∧ rc.turns.getLast? = some t ∧
      rc.state_data.was_fluff =
        t.bet.is_fluff (rc.players_rolls.map Prod.snd).flatten := by
  refine ⟨⟨r.players_rolls, r.turns,
          ⟨r.state_data.curr_player_rolls.player, t.player, r.is_fluff⟩⟩,
        by simp [Round.call_fluff, ht], ht, ?_⟩
  simp [Round.is_fluff, hpb]

/-- C6: a candidate bet failing `is_raised_from` makes `raise_bet` surface
exactly that error with the round unchanged (literally the same value: same
turns, same previous bet, same current actor, same rolls), while a passing
bet appends exactly one Turn of the current actor, stores the new bet as
previous bet, keeps the roll table, and advances to the cyclic successor. -/
theorem c6_raise_bet_frame (r : Round Betting) (bet1 bet2 : Bet) (e : RaiseError) (i : Nat) :
    (bet1.is_raised_from r.state_data.prev_bet = .error e →
      r.raise_bet bet1 = some (r, .error e)) ∧
    (bet2.is_raised_from r.state_data.prev_bet = .ok () →
      r.players_rolls.findIdx?
          (fun kv => kv.1 == r.state_data.curr_player_rolls.player) = some i →
      ∃ r2 kv, r.raise_bet bet2 = some (r2, .ok ()) ∧
        r2.turns = r.turns ++ [⟨r.state_data.curr_player_rolls.player, bet2⟩] ∧
        r2.state_data.prev_bet = bet2 ∧
        r2.players_rolls = r.players_rolls ∧
        r.players_rolls[(i + 1) % r.players_rolls.length]? = some kv ∧
        r2.state_data.curr_player_rolls.player = kv.1) := by
  constructor
  · intro he
    simp [Round.raise_bet, he]
  · intro hok hidx
    obtain ⟨kv, hkv, hins⟩ :=
      init_next_state_eq_some (t := ⟨r.state_data.curr_player_rolls.player, bet2⟩) hidx
    refine ⟨⟨r.players_rolls, r.turns ++ [⟨r.state_data.curr_player_rolls.player, bet2⟩],
            ⟨⟨kv.1, kv.2⟩, bet2⟩⟩, kv, ?_, rfl, rfl, rfl, hkv, rfl⟩
    simp [Round.raise_bet, hok, hins]

/-- C5: the first player due to act in a round built by `Round::new` is the
entry at index 0 of its player table; the first accepted bet records that
player, and any accepted bet or raise made by the player at index `i` hands
the turn to the player at index `(i + 1) mod n` of the fixed table order. -/
theorem c5_turn_order (pdc : List (PlayerRef × Nat)) (mr : Nat) (gen : Nat → Nat)
    (r0 : Round NewRound) (rB : Round Betting) (bet bet2 : Bet) (i j : Nat) :
    (Round.new pdc mr gen = some r0 →
      r0.players_rolls[0]? =
        some (r0.state_data.first_player_rolls.player,
              r0.state_data.first_player_rolls.rolls)) ∧
    (r0.players_rolls.findIdx?
        (fun kv => kv.1 == r0.state_data.first_player_rolls.player) = some i →
      ∃ rb kv, r0.raise_bet_first bet = some rb ∧
        rb.turns = r0.turns ++ [⟨r0.state_data.first_player_rolls.player, bet⟩] ∧
        r0.players_rolls[(i + 1) % r0.players_rolls.length]? = some kv ∧
        rb.state_data.curr_player_rolls.player = kv.1) ∧
    (rB.players_rolls.findIdx?
        (fun kv => kv.1 == rB.state_data.curr_player_rolls.player) = some j →
      bet2.is_raised_from rB.state_data.prev_bet = .ok () →
      ∃ rb kv, rB.raise_bet bet2 = some (rb, .ok ()) ∧
        rB.players_rolls[(j + 1) % rB.players_rolls.length]? = some kv ∧
        rb.state_data.curr_player_rolls.player = kv.1) := by
  refine ⟨?_, ?_, ?_⟩
  · intro h
    unfold Round.new at h
    cases hh : (rollsTable gen (pdc.filter (fun pc => pc.2 != 0)) 0)[0]? with
    | none =>
      rw [hh] at h
      simp at h
    | some kv =>
      rw [hh] at h
      simp only [Option.some.injEq] at h
      rw [← h]
      exact hh
  · intro hidx
    obtain ⟨kv, hkv, hins⟩ :=
      init_next_state_eq_some (t := ⟨r0.state_data.first_player_rolls.player, bet⟩) hidx
    refine ⟨⟨r0.players_rolls, r0.turns ++ [⟨r0.state_data.first_player_rolls.player, bet⟩],
            ⟨⟨kv.1, kv.2⟩, bet⟩⟩, kv, ?_, rfl, hkv, rfl⟩
    simp [Round.raise_bet_first, hins]
  · intro hidx hok
    obtain ⟨kv, hkv, hins⟩ :=
      init_next_state_eq_some (t := ⟨rB.state_data.curr_player_rolls.player, bet2⟩) hidx
    refine ⟨⟨rB.players_rolls, rB.turns ++ [⟨rB.state_data.curr_player_rolls.player, bet2⟩],
            ⟨⟨kv.1, kv.2⟩, bet2⟩⟩, kv, ?_, hkv, rfl⟩
    simp [Round.raise_bet, hok, hins]

/-- When the designated first player is among the filtered table's keys,
`new_with_first_player` succeeds and puts that player first. -/
theorem new_with_first_player_of_mem {pdc : List (PlayerRef × Nat)} (mr : Nat)
    (gen : Nat → Nat) {fp : PlayerRef}
    (hmem : fp ∈ (pdc.filter (fun pc => pc.2 != 0)).map Prod.fst) :
    ∃ v, Round.new_with_first_player pdc mr gen fp =
      some (.ok ⟨rollsTable gen (pdc.filter (fun pc => pc.2 != 0)) 0, [], ⟨⟨fp, v⟩⟩⟩) := by
  have hlen0 : (pdc.filter (fun pc => pc.2 != 0)).length ≠ 0 := by
    intro h0
    rw [List.length_eq_zero] at h0
    rw [h0] at hmem
    simp at hmem
  have hlen : 0 < (rollsTable gen (pdc.filter (fun pc => pc.2 != 0)) 0).length := by
    rw [rollsTable_length]
    omega
  have hkv0 := List.getElem?_eq_getElem hlen
  have hnew : Round.new pdc mr gen =
      some ⟨rollsTable gen (pdc.filter (fun pc => pc.2 != 0)) 0, [],
        ⟨⟨(rollsTable gen (pdc.filter (fun pc => pc.2 != 0)) 0)[0].1,
          (rollsTable gen (pdc.filter (fun pc => pc.2 != 0)) 0)[0].2⟩⟩⟩ := by
    unfold Round.new
    rw [hkv0]
  have hmem2 : fp ∈ (rollsTable gen (pdc.filter (fun pc => pc.2 != 0)) 0).map Prod.fst := by
    rw [rollsTable_keys]
    exact hmem
  obtain ⟨v, hv⟩ := lookupPair_of_mem_keys hmem2
  refine ⟨v, ?_⟩
  unfold Round.new_with_first_player
  rw [hnew]
  simp [hv]

/-- C8: a fresh round rolled from a table with at least one live player
contains exactly the players with nonzero dice counts, in table order, each
with as many rolls as dice, every roll within `[1, max_roll]`; the turn
history starts empty and the head of the filtered table acts first. -/
theorem c8_round_new_shape (pdc : List (PlayerRef × Nat)) (mr : Nat) (gen : Nat → Nat)
    (hg : genInRange gen mr)
    (hne : pdc.filter (fun pc => pc.2 != 0) ≠ []) :
    ∃ r, Round.new pdc mr gen = some r ∧
      r.turns = [] ∧
      r.players_rolls.map Prod.fst = (pdc.filter (fun pc => pc.2 != 0)).map Prod.fst ∧
      List.Forall₂ (fun (pc : PlayerRef × Nat) (pr : PlayerRef × RollSet) =>
          pr.1 = pc.1 ∧ pr.2.length = pc.2 ∧ ∀ x ∈ pr.2, 1 ≤ x ∧ x ≤ mr)
        (pdc.filter (fun pc => pc.2 != 0)) r.players_rolls ∧
      r.players_rolls[0]? =
        some (r.state_data.first_player_rolls.player,
              r.state_data.first_player_rolls.rolls) := by
  have hlen : 0 < (rollsTable gen (pdc.filter (fun pc => pc.2 != 0)) 0).length := by
    rw [rollsTable_length]
    exact List.length_pos.mpr hne
  have hkv0 := List.getElem?_eq_getElem hlen
  refine ⟨⟨rollsTable gen (pdc.filter (fun pc => pc.2 != 0)) 0, [],
      ⟨⟨(rollsTable gen (pdc.filter (fun pc => pc.2 != 0)) 0)[0].1,
        (rollsTable gen (pdc.filter (fun pc => pc.2 != 0)) 0)[0].2⟩⟩⟩,
    ?_, rfl, rollsTable_keys gen _ 0, rollsTable_forall2 hg _ 0, hkv0⟩
  unfold Round.new
  rw [hkv0]

/-- C3: after the loser's die is removed, `Game::call_fluff` ends the game
exactly when a single player still holds dice — recording that player, the
round's winner, as overall winner — and otherwise starts a fresh round in
which the round's winner acts first and every player holding zero dice is
excluded.  The hypotheses state the round-coherence facts every reachable
betting game satisfies: the loser and winner hold dice, they differ, and at
least two players were still alive before resolution. -/
theorem c3_gameover_or_next_round (gen : Nat → Nat) (g : Game (InRound Betting))
    (finished : Round Called) (pdc2 : List (PlayerRef × Nat)) (c w : Nat)
    (hfin : g.state_data.curr_round.call_fluff = some finished)
    (hlo : lookupValue g.player_dice_counts finished.state_data.loser = some c)
    (hc : 0 < c)
    (hw : lookupValue g.player_dice_counts finished.state_data.winner = some w)
    (hw0 : 0 < w)
    (hne : finished.state_data.winner ≠ finished.state_data.loser)
    (hact : 2 ≤ countNonzero g.player_dice_counts)
    (hpdc2 : pdc2 = updateValue g.player_dice_counts finished.state_data.loser
      (fun v => v - 1)) :
    (countNonzero pdc2 = 1 →
      Game.call_fluff gen g = some (.GameOver ⟨pdc2, g.config,
        g.round_history ++ [finished], ⟨finished.state_data.winner⟩⟩) ∧
      pdc2.filter (fun pc => pc.2 != 0) = [(finished.state_data.winner, w)]) ∧
    (countNonzero pdc2 ≠ 1 →
      ∃ r, Game.call_fluff gen g = some (.NextRound ⟨pdc2, g.config,
          g.round_history ++ [finished], ⟨r⟩⟩) ∧
        r.state_data.first_player_rolls.player = finished.state_data.winner ∧
        r.players_rolls.map Prod.fst = (pdc2.filter (fun pc => pc.2 != 0)).map Prod.fst ∧
        r.turns = []) := by
  subst hpdc2
  have hw2 : lookupValue (updateValue g.player_dice_counts finished.state_data.loser
      (fun v => v - 1)) finished.state_data.winner = some w := by
    rw [lookupValue_update_ne _ _ hne]
    exact hw
  have hwmem : (finished.state_data.winner, w) ∈
      (updateValue g.player_dice_counts finished.state_data.loser (fun v => v - 1)).filter
        (fun pc => pc.2 != 0) := by
    refine List.mem_filter.mpr ⟨lookupValue_mem hw2, ?_⟩
    simp
    omega
  constructor
  · intro hcn
    have hout : c - 1 = 0 := by
      by_contra hout
      have heqc := countNonzero_update_of_pos hlo (by omega) hout
      omega
    constructor
    · simp only [Game.call_fluff, hfin, hlo]
      rw [if_pos ⟨hout, hcn⟩]
    · exact length_one_mem_eq hcn hwmem
  · intro hcn
    have hcond : ¬(c - 1 = 0 ∧
        countNonzero (updateValue g.player_dice_counts finished.state_data.loser
          (fun v => v - 1)) = 1) := fun hx => hcn hx.2
    have hfp : finished.state_data.winner ∈
        ((updateValue g.player_dice_counts finished.state_data.loser
          (fun v => v - 1)).filter (fun pc => pc.2 != 0)).map Prod.fst :=
      List.mem_map.mpr ⟨_, hwmem, rfl⟩
    obtain ⟨v, hnwfp⟩ := new_with_first_player_of_mem g.config.max_roll gen hfp
    refine ⟨⟨rollsTable gen
        ((updateValue g.player_dice_counts finished.state_data.loser
          (fun v => v - 1)).filter (fun pc => pc.2 != 0)) 0, [],
        ⟨⟨finished.state_data.winner, v⟩⟩⟩, ?_, rfl, rollsTable_keys gen _ 0, rfl⟩
    simp only [Game.call_fluff, hfin, hlo]
    rw [if_neg hcond, hnwfp]

/-- C7: `Game::call_fluff` changes the dice table only at the loser's entry
(one die fewer), leaves every other player's count, the table's key order
and the configuration untouched, and appends exactly the resolved round to
the end of the history, whichever transition is taken. -/
theorem c7_call_fluff_frame (gen : Nat → Nat) (g : Game (InRound Betting))
    (finished : Round Called) (pdc2 : List (PlayerRef × Nat)) (c w : Nat)
    (hfin : g.state_data.curr_round.call_fluff = some finished)
    (hlo : lookupValue g.player_dice_counts finished.state_data.loser = some c)
    (hc : 0 < c)
    (hw : lookupValue g.player_dice_counts finished.state_data.winner = some w)
    (hw0 : 0 < w)
    (hne : finished.state_data.winner ≠ finished.state_data.loser)
    (hpdc2 : pdc2 = updateValue g.player_dice_counts finished.state_data.loser
      (fun v => v - 1)) :
    ∃ t, Game.call_fluff gen g = some t ∧
      t.dice_counts = pdc2 ∧
      lookupValue t.dice_counts finished.state_data.loser = some (c - 1) ∧
      (∀ p, p ≠ finished.state_data.loser →
        lookupValue t.dice_counts p = lookupValue g.player_dice_counts p) ∧
      t.dice_counts.map Prod.fst = g.player_dice_counts.map Prod.fst ∧
      t.history = g.round_history ++ [finished] ∧
      t.cfg = g.config := by
  subst hpdc2
  have hself := lookupValue_update_self (fun v => v - 1) hlo
  have hothers : ∀ p, p ≠ finished.state_data.loser →
      lookupValue (updateValue g.player_dice_counts finished.state_data.loser
        (fun v => v - 1)) p = lookupValue g.player_dice_counts p :=
    fun p hp => lookupValue_update_ne _ _ hp
  by_cases hcond : c - 1 = 0 ∧
      countNonzero (updateValue g.player_dice_counts finished.state_data.loser
        (fun v => v - 1)) = 1
  · refine ⟨.GameOver ⟨updateValue g.player_dice_counts finished.state_data.loser
        (fun v => v - 1), g.config, g.round_history ++ [finished],
        ⟨finished.state_data.winner⟩⟩, ?_, rfl, hself, hothers,
      map_fst_updateValue _ _ _, rfl, rfl⟩
    simp only [Game.call_fluff, hfin, hlo]
    rw [if_pos hcond]
  · have hw2 : lookupValue (updateValue g.player_dice_counts finished.state_data.loser
        (fun v => v - 1)) finished.state_data.winner = some w := by
      rw [lookupValue_update_ne _ _ hne]
      exact hw
    have hwmem : (finished.state_data.winner, w) ∈
        (updateValue g.player_dice_counts finished.state_data.loser (fun v => v - 1)).filter
          (fun pc => pc.2 != 0) := by
      refine List.mem_filter.mpr ⟨lookupValue_mem hw2, ?_⟩
      simp
      omega
    have hfp : finished.state_data.winner ∈
        ((updateValue g.player_dice_counts finished.state_data.loser
          (fun v => v - 1)).filter (fun pc => pc.2 != 0)).map Prod.fst :=
      List.mem_map.mpr ⟨_, hwmem, rfl⟩
    obtain ⟨v, hnwfp⟩ := new_with_first_player_of_mem g.config.max_roll gen hfp
    refine ⟨.NextRound ⟨updateValue g.player_dice_counts finished.state_data.loser
        (fun v => v - 1), g.config, g.round_history ++ [finished],
        ⟨⟨rollsTable gen ((updateValue g.player_dice_counts finished.state_data.loser
          (fun v => v - 1)).filter (fun pc => pc.2 != 0)) 0, [],
          ⟨⟨finished.state_data.winner, v⟩⟩⟩⟩⟩, ?_, rfl, hself, hothers,
      map_fst_updateValue _ _ _, rfl, rfl⟩
    simp only [Game.call_fluff, hfin, hlo]
    rw [if_neg hcond, hnwfp]

/-- Decoding a list encoded elementwise recovers the list. -/
theorem decListWith_map {α : Type} {f : α → Sx} {g : Sx → Option α}
    (h : ∀ a, g (f a) = some a) (xs : List α) :
    decListWith g (xs.map f) = some xs := by
  induction xs with
  | nil => rfl
  | cons x xs ih => simp [decListWith, h, ih]

/-- Bet snapshots decode back to the bet. -/
theorem decBet_encBet (b : Bet) : decBet (encBet b) = some b := rfl

/-- Roll-set snapshots decode back to the roll set. -/
theorem decRolls_encRolls (rs : RollSet) : decRolls (encRolls rs) = some rs := by
  have h := decListWith_map (f := Sx.nat)
    (g := fun s => match s with | .nat n => some n | _ => none) (fun n => rfl) rs
  simp [decRolls, encRolls, h]

/-- Turn snapshots decode back to the turn. -/
theorem decTurn_encTurn (t : Turn) : decTurn (encTurn t) = some t := rfl

/-- Roll-table entries decode back to the entry. -/
theorem decPRolls_encPRolls (pr : PlayerRef × RollSet) :
    decPRolls (encPRolls pr) = some pr := by
  simp [decPRolls, encPRolls, decRolls_encRolls]

/-- Dice-count entries decode back to the entry. -/
theorem decPCount_encPCount (pc : PlayerRef × Nat) :
    decPCount (encPCount pc) = some pc := rfl

/-- PlayerRolls snapshots decode back to the value. -/
theorem decPlayerRolls_encPlayerRolls (pr : PlayerRolls) :
    decPlayerRolls (encPlayerRolls pr) = some pr := by
  simp [decPlayerRolls, encPlayerRolls, decRolls_encRolls]

/-- NewRound phase data decodes back to the value. -/
theorem decNewRound_encNewRound (d : NewRound) :
    decNewRound (encNewRound d) = some d := by
  simp [decNewRound, encNewRound, decPlayerRolls_encPlayerRolls]

/-- Betting phase data decodes back to the value. -/
theorem decBetting_encBetting (d : Betting) :
    decBetting (encBetting d) = some d := by
  simp [decBetting, encBetting, decPlayerRolls_encPlayerRolls, decBet_encBet]

/-- Called phase data decodes back to the value. -/
theorem decCalled_encCalled (c : Called) :
    decCalled (encCalled c) = some c := by
  cases hf : c.was_fluff <;> simp [decCalled, encCalled, hf] <;> rw [← hf]

/-- Round snapshots decode back to the round, given a faithful phase
decoder. -/
theorem decRound_encRound {σ : Type} {encS : σ → Sx} {decS : Sx → Option σ}
    (h : ∀ s, decS (encS s) = some s) (r : Round σ) :
    decRound decS (encRound encS r) = some r := by
  simp [decRound, encRound, decListWith_map decPRolls_encPRolls,
    decListWith_map decTurn_encTurn, h]

/-- Configuration snapshots decode back to the configuration. -/
theorem decConfig_encConfig (c : GameConfig) : decConfig (encConfig c) = some c := rfl

/-- Game snapshots decode back to the game, given a faithful phase decoder. -/
theorem decGame_encGame {σ : Type} {encS : σ → Sx} {decS : Sx → Option σ}
    (h : ∀ s, decS (encS s) = some s) (g : Game σ) :
    decGame decS (encGame encS g) = some g := by
  simp [decGame, encGame, decListWith_map decPCount_encPCount, decConfig_encConfig,
    decListWith_map (decRound_encRound decCalled_encCalled), h]

/-- In-round phase data decodes back to the value. -/
theorem decInRound_encInRound {σ : Type} {encS : σ → Sx} {decS : Sx → Option σ}
    (h : ∀ s, decS (encS s) = some s) (d : InRound σ) :
    decInRound decS (encInRound encS d) = some d := by
  simp [decInRound, encInRound, decRound_encRound h]

/-- Game-over phase data decodes back to the value. -/
theorem decGameOver_encGameOver (d : GameOver) : decGameOver (encGameOver d) = some d := rfl

/-- C9: serializing then deserializing a Game in any phase — in a fresh
round, mid-betting, or game over — reconstructs a structurally equal value,
key order of the player tables and full turn histories included (they are
stored as ordered sequences by the snapshot form). -/
theorem c2_witness :
    (sampleRound.turns.getLast? = some ⟨"Alice", ⟨2, 3⟩⟩ ∧
     sampleRound.players_rolls.findIdx? (fun kv => kv.1 == "Alice") = some 0 ∧
     init_next_state sampleRound.players_rolls ⟨"Alice", ⟨2, 3⟩⟩ =
       some sampleRound.state_data ∧
     (sampleRound.players_rolls.map Prod.fst).Nodup ∧
     2 ≤ sampleRound.players_rolls.length) ∧
    (∃ rc, sampleRound.call_fluff = some rc ∧
      rc.state_data.was_fluff =
        sampleRound.state_data.prev_bet.is_fluff
          (sampleRound.players_rolls.map Prod.snd).flatten ∧
      rc.state_data.better = "Alice" ∧
      rc.state_data.caller = sampleRound.state_data.curr_player_rolls.player ∧
      rc.state_data.caller ≠ rc.state_data.better ∧
      rc.state_data.loser =
        (if rc.state_data.was_fluff then rc.state_data.better else rc.state_data.caller) ∧
      rc.state_data.winner =
        (if rc.state_data.was_fluff then rc.state_data.caller else rc.state_data.better)) :=
  ⟨⟨rfl, rfl, rfl, by decide, by decide⟩,
   c2_call_fluff_resolution sampleRound ⟨"Alice", ⟨2, 3⟩⟩ 0 rfl rfl rfl
     (by decide) (by decide)⟩

theorem c10_witness :
    (sampleRound.turns.getLast? = some ⟨"Alice", ⟨2, 3⟩⟩ ∧
     sampleRound.state_data.prev_bet = Bet.mk 2 3) ∧
    (∃ rc, sampleRound.call_fluff = some rc ∧
      rc.turns.getLast? = some ⟨"Alice", ⟨2, 3⟩⟩ ∧
      rc.state_data.was_fluff =
        (Bet.mk 2 3).is_fluff (rc.players_rolls.map Prod.snd).flatten) :=
  ⟨⟨rfl, rfl⟩, c10_verdict_recompute sampleRound ⟨"Alice", ⟨2, 3⟩⟩ rfl rfl⟩

theorem c6_witness :
    (Bet.is_raised_from ⟨1, 1⟩ sampleRound.state_data.prev_bet =
       .error (.CountDecreased 2 1) ∧
     sampleRound.raise_bet ⟨1, 1⟩ = some (sampleRound, .error (.CountDecreased 2 1))) ∧
    (Bet.is_raised_from ⟨3, 1⟩ sampleRound.state_data.prev_bet = .ok () ∧
     sampleRound.players_rolls.findIdx? (fun kv => kv.1 == "Bob") = some 1 ∧
     ∃ r2 kv, sampleRound.raise_bet ⟨3, 1⟩ = some (r2, .ok ()) ∧
       r2.turns = sampleRound.turns ++
         [⟨sampleRound.state_data.curr_player_rolls.player, ⟨3, 1⟩⟩] ∧
       r2.state_data.prev_bet = Bet.mk 3 1 ∧
       r2.players_rolls = sampleRound.players_rolls ∧
       sampleRound.players_rolls[(1 + 1) % sampleRound.players_rolls.length]? = some kv ∧
       r2.state_data.curr_player_rolls.player = kv.1) :=
  ⟨⟨rfl, (c6_raise_bet_frame sampleRound ⟨1, 1⟩ ⟨3, 1⟩ (.CountDecreased 2 1) 1).1 rfl⟩,
   ⟨rfl, rfl, (c6_raise_bet_frame sampleRound ⟨1, 1⟩ ⟨3, 1⟩ (.CountDecreased 2 1) 1).2
     rfl rfl⟩⟩

theorem c5_witness :
    (Round.new [("Alice", 1), ("Bob", 2)] 3 (fun _ => 2) = some sampleFresh) ∧
    (sampleFresh.players_rolls[0]? =
      some (sampleFresh.state_data.first_player_rolls.player,
            sampleFresh.state_data.first_player_rolls.rolls)) ∧
    (sampleFresh.players_rolls.findIdx?
        (fun kv => kv.1 == sampleFresh.state_data.first_player_rolls.player) = some 0 ∧
     ∃ rb kv, sampleFresh.raise_bet_first ⟨2, 3⟩ = some rb ∧
       rb.turns = sampleFresh.turns ++
         [⟨sampleFresh.state_data.first_player_rolls.player, ⟨2, 3⟩⟩] ∧
       sampleFresh.players_rolls[(0 + 1) % sampleFresh.players_rolls.length]? = some kv ∧
       rb.state_data.curr_player_rolls.player = kv.1) ∧
    (sampleRound.players_rolls.findIdx?
        (fun kv => kv.1 == sampleRound.state_data.curr_player_rolls.player) = some 1 ∧
     Bet.is_raised_from ⟨3, 1⟩ sampleRound.state_data.prev_bet = .ok () ∧
     ∃ rb kv, sampleRound.raise_bet ⟨3, 1⟩ = some (rb, .ok ()) ∧
       sampleRound.players_rolls[(1 + 1) % sampleRound.players_rolls.length]? = some kv ∧
       rb.state_data.curr_player_rolls.player = kv.1) :=
  ⟨by decide,
   (c5_turn_order [("Alice", 1), ("Bob", 2)] 3 (fun _ => 2) sampleFresh sampleRound
     ⟨2, 3⟩ ⟨3, 1⟩ 0 1).1 (by decide),
   ⟨rfl, (c5_turn_order [("Alice", 1), ("Bob", 2)] 3 (fun _ => 2) sampleFresh sampleRound
     ⟨2, 3⟩ ⟨3, 1⟩ 0 1).2.1 rfl⟩,
   ⟨rfl, rfl, (c5_turn_order [("Alice", 1), ("Bob", 2)] 3 (fun _ => 2) sampleFresh
     sampleRound ⟨2, 3⟩ ⟨3, 1⟩ 0 1).2.2 rfl rfl⟩⟩

theorem c8_witness :
    genInRange (fun _ => 2) 3 ∧
    [("Alice", 1), ("Bob", 0), ("Carol", 2)].filter (fun pc => pc.2 != 0) ≠ [] ∧
    (∃ r, Round.new [("Alice", 1), ("Bob", 0), ("Carol", 2)] 3 (fun _ => 2) = some r ∧
      r.turns = [] ∧
      r.players_rolls.map Prod.fst =
        ([("Alice", 1), ("Bob", 0), ("Carol", 2)].filter
          (fun pc => pc.2 != 0)).map Prod.fst ∧
      List.Forall₂ (fun (pc : PlayerRef × Nat) (pr : PlayerRef × RollSet) =>
          pr.1 = pc.1 ∧ pr.2.length = pc.2 ∧ ∀ x ∈ pr.2, 1 ≤ x ∧ x ≤ 3)
        ([("Alice", 1), ("Bob", 0), ("Carol", 2)].filter (fun pc => pc.2 != 0))
        r.players_rolls ∧
      r.players_rolls[0]? =
        some (r.state_data.first_player_rolls.player,
              r.state_data.first_player_rolls.rolls)) :=
  ⟨fun _ => ⟨one_le_two, Nat.le_succ 2⟩, by decide,
   c8_round_new_shape [("Alice", 1), ("Bob", 0), ("Carol", 2)] 3 (fun _ => 2)
     (fun _ => ⟨one_le_two, Nat.le_succ 2⟩) (by decide)⟩

theorem c3_witness :
    (gameA.state_data.curr_round.call_fluff = some finishedA ∧
     lookupValue gameA.player_dice_counts finishedA.state_data.loser = some 1 ∧
     lookupValue gameA.player_dice_counts finishedA.state_data.winner = some 1 ∧
     finishedA.state_data.winner ≠ finishedA.state_data.loser ∧
     2 ≤ countNonzero gameA.player_dice_counts ∧
     pdcA = updateValue gameA.player_dice_counts finishedA.state_data.loser
       (fun v => v - 1)) ∧
    ((countNonzero pdcA = 1 →
      Game.call_fluff (fun _ => 2) gameA = some (.GameOver ⟨pdcA, gameA.config,
        gameA.round_history ++ [finishedA], ⟨finishedA.state_data.winner⟩⟩) ∧
      pdcA.filter (fun pc => pc.2 != 0) = [(finishedA.state_data.winner, 1)]) ∧
    (countNonzero pdcA ≠ 1 →
      ∃ r, Game.call_fluff (fun _ => 2) gameA = some (.NextRound ⟨pdcA, gameA.config,
          gameA.round_history ++ [finishedA], ⟨r⟩⟩) ∧
        r.state_data.first_player_rolls.player = finishedA.state_data.winner ∧
        r.players_rolls.map Prod.fst = (pdcA.filter (fun pc => pc.2 != 0)).map Prod.fst ∧
        r.turns = [])) :=
  ⟨⟨rfl, rfl, rfl, by decide, by decide, rfl⟩,
   c3_gameover_or_next_round (fun _ => 2) gameA finishedA pdcA 1 1 rfl rfl
     (by decide) rfl (by decide) (by decide) (by decide) rfl⟩

theorem c7_witness :
    (gameA.state_data.curr_round.call_fluff = some finishedA ∧
     lookupValue gameA.player_dice_counts finishedA.state_data.loser = some 1 ∧
     lookupValue gameA.player_dice_counts finishedA.state_data.winner = some 1 ∧
     finishedA.state_data.winner ≠ finishedA.state_data.loser ∧
     pdcA = updateValue gameA.player_dice_counts finishedA.state_data.loser
       (fun v => v - 1)) ∧
    (∃ t, Game.call_fluff (fun _ => 2) gameA = some t ∧
      t.dice_counts = pdcA ∧
      lookupValue t.dice_counts finishedA.state_data.loser = some 0 ∧
      (∀ p, p ≠ finishedA.state_data.loser →
        lookupValue t.dice_counts p = lookupValue gameA.player_dice_counts p) ∧
      t.dice_counts.map Prod.fst = gameA.player_dice_counts.map Prod.fst ∧
      t.history = gameA.round_history ++ [finishedA] ∧
      t.cfg = gameA.config) :=
  ⟨⟨rfl, rfl, rfl, by decide, rfl⟩,
   c7_call_fluff_frame (fun _ => 2) gameA finishedA pdcA 1 1 rfl rfl
     (by decide) rfl (by decide) (by decide) rfl⟩

theorem c9_serialization_roundtrip (g1 : Game (InRound NewRound))
    (g2 : Game (InRound Betting)) (g3 : Game GameOver) :
    decGame (decInRound decNewRound) (encGame (encInRound encNewRound) g1) = some g1 ∧
    decGame (decInRound decBetting) (encGame (encInRound encBetting) g2) = some g2 ∧
    decGame decGameOver (encGame encGameOver g3) = some g3 :=
  ⟨decGame_encGame (decInRound_encInRound decNewRound_encNewRound) g1,
   decGame_encGame (decInRound_encInRound decBetting_encBetting) g2,
   decGame_encGame decGameOver_encGameOver g3⟩

end Fluff
